import Mathlib

/-!
# Contact directory: merge and search pipeline of `src/component/Contact.jsx`

A shallow embedding of the two pieces of logic of `ContactsApp`:

* the load effect (`fetch(...).then(r => r.json()).then(merge).catch(fallback)`),
  whose success handler merges the remote payload into `dummyContacts`
  through a `Map` keyed by `c.id`;
* `filteredContacts`, the case-insensitive substring filter over `name`,
  `email` and `company.name`.

JavaScript is dynamically typed and the remote payload is whatever
`r.json()` yields, so values are modelled by `JSValue` and every operation
that can throw returns `Except JSError`.

The case conversion of strings follows the Unicode tables of the engine,
which are no part of the repository. It is written out for Basic Latin,
Latin-1 and white space, and is the parameter `UnicodeCase` for every other
string, so a statement about `filteredContacts U` holds for whatever the
engine does there.
-/

set_option autoImplicit false

namespace ContactsApp

/-! ## Strings -/

/-- A JavaScript string: a sequence of UTF-16 code units. -/
abbrev JSString := List Nat

/-- UTF-16 code units of one Unicode scalar value. -/
def utf16Units (n : Nat) : List Nat :=
  if n < 65536 then [n]
  else [55296 + (n - 65536) / 1024, 56320 + (n - 65536) % 1024]

/-- The JavaScript string denoted by a source literal. -/
def utf16 (s : String) : JSString :=
  s.data.flatMap (fun c => utf16Units c.toNat)

/-- The characters `String.prototype.trim` removes: the white space and line
terminator code points of ECMAScript. None of them has a case. -/
def isWhiteSpace (u : Nat) : Bool :=
  u = 9 || u = 10 || u = 11 || u = 12 || u = 13 || u = 32 || u = 160 || u = 5760 ||
  (8192 ≤ u && u ≤ 8202) || u = 8232 || u = 8233 || u = 8239 || u = 8287 ||
  u = 12288 || u = 65279

/-- The code units whose case conversion is written out below: the Basic
Latin and Latin-1 Supplement blocks (U+0000 to U+00FF) and the white-space
code points. In a string made of these only, the conversion of a code unit
does not depend on its neighbours. -/
def tabulated (u : Nat) : Bool := u < 256 || isWhiteSpace u

/-- The case conversion of the JavaScript engine, which follows the Unicode
character database and is no part of the repository: `lower s` and `upper s`
are what `s.toLowerCase()` and `s.toUpperCase()` return. It is a parameter of
the model and is read only for a string with a code unit that is not
`tabulated` (Cyrillic or Greek letters, U+212A, U+0130, surrogate pairs). -/
structure UnicodeCase where
  lower : JSString → JSString
  upper : JSString → JSString

/-- Lower case of a `tabulated` code unit: `A` to `Z` and the capital letters
U+00C0 to U+00DE (U+00D7, the multiplication sign, is no letter) move up by
32; every other `tabulated` code unit is its own lower case. -/
def lowerUnit (u : Nat) : Nat :=
  if 65 ≤ u ∧ u ≤ 90 then u + 32
  else if 192 ≤ u ∧ u ≤ 222 ∧ u ≠ 215 then u + 32
  else u

/-- Upper case of a `tabulated` code unit: `a` to `z` and the small letters
U+00E0 to U+00FE (U+00F7, the division sign, is no letter) move down by 32;
U+00DF (sharp s) has the two-letter upper case `SS`, U+00B5 (micro sign) maps
to U+039C and U+00FF to U+0178; every other `tabulated` code unit is its own
upper case. -/
def upperUnit (u : Nat) : List Nat :=
  if 97 ≤ u ∧ u ≤ 122 then [u - 32]
  else if 224 ≤ u ∧ u ≤ 254 ∧ u ≠ 247 then [u - 32]
  else if u = 223 then [83, 83]
  else if u = 181 then [924]
  else if u = 255 then [376]
  else [u]

/-- The builtin `String.prototype.toLowerCase`: written out for a string of
`tabulated` code units, the engine's conversion `U.lower` for any other. -/
def toLowerCase (U : UnicodeCase) (s : JSString) : JSString :=
  if s.all tabulated then s.map lowerUnit else U.lower s

/-- The builtin `String.prototype.toUpperCase`: written out for a string of
`tabulated` code units, the engine's conversion `U.upper` for any other. -/
def toUpperCase (U : UnicodeCase) (s : JSString) : JSString :=
  if s.all tabulated then s.flatMap upperUnit else U.upper s

/-- The builtin `String.prototype.includes(search)` with the default start
position: scan the positions of `s` from the left and test whether `search`
starts there. -/
def includes : JSString → JSString → Bool
  | [], search => search.isPrefixOf []
  | u :: rest, search => search.isPrefixOf (u :: rest) || includes rest search

/-! ## Values and errors -/

/-- JavaScript values that occur in the component: the results of
`JSON.parse`, the object literals of the source, and `undefined` for a missing
property. Numbers are the integers (which is what ids are, with one zero);
an object is the list of its own properties, the first entry of a key being
its value. -/
inductive JSValue where
  | undefined : JSValue
  | null : JSValue
  | bool (b : Bool) : JSValue
  | number (n : Int) : JSValue
  | string (s : JSString) : JSValue
  | array (items : List JSValue) : JSValue
  | object (props : List (JSString × JSValue)) : JSValue

/-- Exceptions and promise rejections. -/
inductive JSError where
  | typeError : JSError
  | syntaxError : JSError
  | networkError : JSError
  deriving DecidableEq, Repr

/-- Whether a value is `null` or `undefined`. -/
def JSValue.isNullish : JSValue → Bool
  | .undefined => true
  | .null => true
  | _ => false

/-- The value a property read `v.key` yields when it does not throw, for the
keys the component reads (`id`, `name`, `email`, `company`): an own property
of an object, `undefined` otherwise (none of these keys is inherited from a
builtin prototype). -/
def JSValue.propOf (v : JSValue) (key : JSString) : JSValue :=
  match v with
  | .object props => (props.lookup key).getD .undefined
  | _ => .undefined

/-- Property read `v.key`: a `TypeError` on `null` and `undefined`. -/
def JSValue.getProp (v : JSValue) (key : JSString) : Except JSError JSValue :=
  if v.isNullish then .error .typeError else .ok (v.propOf key)

/-- Method call `v.toLowerCase()`: only a string has the method; on any
other value the call is a `TypeError`. -/
def JSValue.callToLowerCase (U : UnicodeCase) : JSValue → Except JSError JSString
  | .string s => .ok (toLowerCase U s)
  | _ => .error .typeError

/-- The `SameValueZero` comparison `Map` uses for keys. Primitives compare by
value. Objects and arrays compare by reference; two keys of the merge never
hold the same reference (each comes from its own place in a freshly parsed
payload), so they never compare equal. -/
def sameValueZero : JSValue → JSValue → Bool
  | .undefined, .undefined => true
  | .null, .null => true
  | .bool a, .bool b => a == b
  | .number a, .number b => a == b
  | .string a, .string b => a == b
  | _, _ => false

/-! ## Seed data -/

/-- The first entry of `dummyContacts`. -/
def sarah : JSValue :=
  .object [
    (utf16 "id", .number 101),
    (utf16 "name", .string (utf16 "Sarah Mitchell")),
    (utf16 "username", .string (utf16 "sarahm")),
    (utf16 "email", .string (utf16 "sarah.mitchell@techcorp.com")),
    (utf16 "phone", .string (utf16 "+1 (555) 123-4567")),
    (utf16 "website", .string (utf16 "sarahmitchell.dev")),
    (utf16 "company", .object [
      (utf16 "name", .string (utf16 "TechCorp Solutions")),
      (utf16 "catchPhrase", .string (utf16 "Innovating the future of technology"))]),
    (utf16 "address", .object [
      (utf16 "city", .string (utf16 "San Francisco")),
      (utf16 "zipcode", .string (utf16 "94105"))])]

/-- The second entry of `dummyContacts`. -/
def marcus : JSValue :=
  .object [
    (utf16 "id", .number 102),
    (utf16 "name", .string (utf16 "Marcus Johnson")),
    (utf16 "username", .string (utf16 "mjohnson")),
    (utf16 "email", .string (utf16 "marcus.j@designstudio.io")),
    (utf16 "phone", .string (utf16 "+1 (555) 987-6543")),
    (utf16 "website", .string (utf16 "marcusdesigns.com")),
    (utf16 "company", .object [
      (utf16 "name", .string (utf16 "Design Studio Pro")),
      (utf16 "catchPhrase", .string (utf16 "Where creativity meets functionality"))]),
    (utf16 "address", .object [
      (utf16 "city", .string (utf16 "New York")),
      (utf16 "zipcode", .string (utf16 "10001"))])]

/-- The built-in seed list. -/
def dummyContacts : List JSValue := [sarah, marcus]

/-! ## The merge of the fetch success handler -/

/-- One code point read by the string iterator: a surrogate pair when a high
surrogate is followed by a low one, a single code unit otherwise. -/
def codePoints : JSString → List JSString
  | [] => []
  | [u] => [[u]]
  | u :: v :: rest =>
    if 55296 ≤ u ∧ u ≤ 56319 ∧ 56320 ≤ v ∧ v ≤ 57343 then [u, v] :: codePoints rest
    else [u] :: codePoints (v :: rest)

/-- The elements a spread `...data` contributes: those of an array, the code
points of a string; any other value is not iterable (`TypeError`). -/
def spread : JSValue → Except JSError (List JSValue)
  | .array items => .ok items
  | .string s => .ok ((codePoints s).map .string)
  | _ => .error .typeError

/-- The callback `(c) => [c.id, c]` of `all.map`. -/
def toEntry (c : JSValue) : Except JSError (JSValue × JSValue) := do
  let id ← c.getProp (utf16 "id")
  pure (id, c)

/-- The builtin `Array.prototype.map` with a callback that may throw: the
elements are visited from the left and the first exception ends the loop. -/
def arrayMap {β : Type} (f : JSValue → Except JSError β) :
    List JSValue → Except JSError (List β)
  | [] => .ok []
  | x :: xs => do
    let y ← f x
    let ys ← arrayMap f xs
    pure (y :: ys)

/-- The builtin `Map.prototype.set` on the entry list of a `Map` (in
insertion order): an entry whose key is `SameValueZero`-equal gets the new
value and keeps its place, otherwise the entry is appended. -/
def mapSet : List (JSValue × JSValue) → JSValue → JSValue → List (JSValue × JSValue)
  | [], k, v => [(k, v)]
  | (k', v') :: rest, k, v =>
    if sameValueZero k' k then (k', v) :: rest else (k', v') :: mapSet rest k v

/-- The constructor `new Map(entries)`: `set` for each entry in order. -/
def newMap (entries : List (JSValue × JSValue)) : List (JSValue × JSValue) :=
  entries.foldl (fun m e => mapSet m e.1 e.2) []

/-- The spread `[...byId.values()]`: the values in insertion order. -/
def mapValues (m : List (JSValue × JSValue)) : List JSValue := m.map Prod.snd

/-- The merge of the success handler: the value passed to `setContacts`. -/
def mergeContacts (data : JSValue) : Except JSError (List JSValue) := do
  let items ← spread data
  let all := dummyContacts ++ items
  let entries ← arrayMap toEntry all
  let byId := newMap entries
  pure (mapValues byId)

/-! ## The load effect -/

/-- The part of the component state the load effect writes. -/
structure State where
  contacts : List JSValue
  loading : Bool

/-- The state after `useState([])` and `useState(true)`. -/
def initialState : State := ⟨[], true⟩

/-- A response of the endpoint: its HTTP status and the outcome of
`r.json()` (a rejection when the body is not JSON, the parsed value
otherwise). -/
structure Response where
  status : Nat
  json : Except JSError JSValue

/-- The success handler `(data) => { ... }`. -/
def onData (s : State) (data : JSValue) : Except JSError State := do
  let merged ← mergeContacts data
  let s := { s with contacts := merged }
  pure { s with loading := false }

/-- The rejection handler `() => { ... }`. -/
def onError (s : State) : State :=
  let s := { s with contacts := dummyContacts }
  { s with loading := false }

/-- The promise chain `fetch(url).then(r => r.json()).then(onData)`, given
the outcome of `fetch` (a rejection or a response, whatever its status). -/
def successChain (s : State) (fetched : Except JSError Response) : Except JSError State := do
  let r ← fetched
  let data ← r.json
  onData s data

/-- The load effect: the success chain, and `.catch(onError)` for a rejection
anywhere in it. -/
def loadEffect (s : State) (fetched : Except JSError Response) : State :=
  match successChain s fetched with
  | .ok s' => s'
  | .error _ => onError s

/-! ## The search filter -/

/-- The callback of `contacts.filter`: the three disjuncts are evaluated from
the left and `||` stops at the first that holds. -/
def matchesSearch (U : UnicodeCase) (searchTerm : JSString) (c : JSValue) : Except JSError Bool := do
  let name ← (← c.getProp (utf16 "name")).callToLowerCase U
  if includes name (toLowerCase U searchTerm) then pure true
  else do
    let email ← (← c.getProp (utf16 "email")).callToLowerCase U
    if includes email (toLowerCase U searchTerm) then pure true
    else do
      let company ← c.getProp (utf16 "company")
      let companyName ← (← company.getProp (utf16 "name")).callToLowerCase U
      pure (includes companyName (toLowerCase U searchTerm))

/-- The builtin `Array.prototype.filter` with a callback that may throw: the
elements are visited from the left, those for which the callback holds are
kept in order, and the first exception ends the loop. -/
def arrayFilter (p : JSValue → Except JSError Bool) :
    List JSValue → Except JSError (List JSValue)
  | [] => .ok []
  | x :: xs => do
    let keep ← p x
    let rest ← arrayFilter p xs
    pure (if keep then x :: rest else rest)

/-- The derived value `filteredContacts`. -/
def filteredContacts (U : UnicodeCase) (contacts : List JSValue) (searchTerm : JSString) :
    Except JSError (List JSValue) :=
  arrayFilter (matchesSearch U searchTerm) contacts

/-! ## Contacts as the data model describes them -/

/-- Whether a value is a string. -/
def JSValue.isString : JSValue → Bool
  | .string _ => true
  | _ => false

/-- The code units of a string value (empty for any other value). -/
def JSValue.stringOf : JSValue → JSString
  | .string s => s
  | _ => []

/-- The `id` of a contact. -/
def idOf (c : JSValue) : JSValue := c.propOf (utf16 "id")

/-- The `name` of a contact. -/
def nameOf (c : JSValue) : JSString := (c.propOf (utf16 "name")).stringOf

/-- The `email` of a contact. -/
def emailOf (c : JSValue) : JSString := (c.propOf (utf16 "email")).stringOf

/-- The `company.name` of a contact. -/
def companyNameOf (c : JSValue) : JSString :=
  ((c.propOf (utf16 "company")).propOf (utf16 "name")).stringOf

/-- A contact as the filter needs it: `name`, `email` and `company.name` are
strings (so the value is an object and so is its `company`). -/
def isContact (c : JSValue) : Bool :=
  (c.propOf (utf16 "name")).isString && (c.propOf (utf16 "email")).isString &&
    ((c.propOf (utf16 "company")).propOf (utf16 "name")).isString

/-- The search criterion: the lower-cased query is a substring of the
lower-cased `name`, `email` or `company.name`. -/
def Matches (U : UnicodeCase) (q : JSString) (c : JSValue) : Prop :=
  toLowerCase U q <:+: toLowerCase U (nameOf c) ∨
  toLowerCase U q <:+: toLowerCase U (emailOf c) ∨
  toLowerCase U q <:+: toLowerCase U (companyNameOf c)

instance (U : UnicodeCase) (q : JSString) (c : JSValue) : Decidable (Matches U q c) := by
  unfold Matches; infer_instance

/-- The entry `[c.id, c]` the callback of `all.map` builds when it does not
throw. -/
def entryOf (c : JSValue) : JSValue × JSValue := (idOf c, c)

/-- The last element of `xs` whose `id` is `SameValueZero`-equal to `k`. -/
def lastWithId (k : JSValue) (xs : List JSValue) : Option JSValue :=
  (xs.filter (fun x => sameValueZero k (idOf x))).getLast?

/-- The distinct keys of a sequence in order of first occurrence. -/
def firstOccurrences : List JSValue → List JSValue
  | [] => []
  | k :: ks => k :: (firstOccurrences ks).filter (fun j => !sameValueZero k j)

/-- From the specification's words, one insertion into the ordered
association `id → Contact`: a contact whose `id` is already a key overwrites
the value stored under it, the key keeping its position; otherwise the
contact is added at the end. -/
def assocInsert (m : List (JSValue × JSValue)) (c : JSValue) : List (JSValue × JSValue) :=
  if m.any (fun e => sameValueZero e.1 (idOf c)) then
    m.map (fun e => if sameValueZero e.1 (idOf c) then (e.1, c) else e)
  else m ++ [(idOf c, c)]

/-- From the specification's words, the merge: insert the seed entries, then
the remote entries, and emit the values in insertion order. -/
def orderedMerge (seed remote : List JSValue) : List JSValue :=
  (remote.foldl assocInsert (seed.foldl assocInsert [])).map Prod.snd

/-- Whether an `id` is neither of the two seed ids. -/
def notSeedId (j : JSValue) : Bool :=
  !sameValueZero (.number 101) j && !sameValueZero (.number 102) j

/-- The remote record of the specification's scenario A. -/
def remoteX : JSValue :=
  .object [
    (utf16 "id", .number 101),
    (utf16 "name", .string (utf16 "X")),
    (utf16 "email", .string (utf16 "x@x.com")),
    (utf16 "company", .object [(utf16 "name", .string (utf16 "Co"))])]

/-- A remote record with an id of its own. -/
def remoteNew : JSValue :=
  .object [
    (utf16 "id", .number 1),
    (utf16 "name", .string (utf16 "Leanne Graham")),
    (utf16 "username", .string (utf16 "Bret")),
    (utf16 "email", .string (utf16 "Sincere@april.biz")),
    (utf16 "company", .object [(utf16 "name", .string (utf16 "Romaguera-Crona"))])]

/-- A second remote record carrying the id of `remoteNew`. -/
def remoteDup : JSValue :=
  .object [
    (utf16 "id", .number 1),
    (utf16 "name", .string (utf16 "Ervin Howell")),
    (utf16 "username", .string (utf16 "Antonette")),
    (utf16 "email", .string (utf16 "Shanna@melissa.tv")),
    (utf16 "company", .object [(utf16 "name", .string (utf16 "Deckow-Crist"))])]

/-- A contact whose name holds U+00DF, the letter whose upper case is `SS`. -/
def strasse : JSValue :=
  .object [
    (utf16 "id", .number 7),
    (utf16 "name", .string (utf16 "Straße")),
    (utf16 "email", .string (utf16 "kontakt@example.de")),
    (utf16 "company", .object [(utf16 "name", .string (utf16 "Co"))])]

/-- A response with status 500 whose body is a JSON array of one contact. -/
def serverError : Response := ⟨500, .ok (.array [remoteNew])⟩

/-! ## Lemmas: strings -/

theorem includes_iff (s t : JSString) : includes s t = true ↔ t <:+: s := by
  induction s with
  | nil =>
    cases t <;> simp [includes, List.isPrefixOf]
  | cons u rest ih =>
    simp only [includes, Bool.or_eq_true, ih, List.isPrefixOf_iff_prefix, List.infix_cons_iff]

theorem lowerUnit_upperUnit_ascii (u : Nat) (h : u < 128) :
    (upperUnit u).map lowerUnit = [lowerUnit u] := by
  unfold upperUnit
  split_ifs <;> simp only [List.map_cons, List.map_nil, List.cons.injEq, and_true] <;>
    unfold lowerUnit <;> split_ifs <;> omega

theorem map_lowerUnit_flatMap_upperUnit (q : JSString) (h : ∀ u ∈ q, u < 128) :
    (q.flatMap upperUnit).map lowerUnit = q.map lowerUnit := by
  induction q with
  | nil => rfl
  | cons u rest ih =>
    have hu : u < 128 := h u (List.mem_cons_self u rest)
    have hr := ih (fun v hv => h v (List.mem_cons_of_mem u hv))
    simp only [List.flatMap_cons, List.map_append, List.map_cons, hr,
      lowerUnit_upperUnit_ascii u hu, List.singleton_append]

theorem upperUnit_ascii (u : Nat) (h : u < 128) : ∀ v ∈ upperUnit u, v < 128 := by
  unfold upperUnit
  split_ifs <;> simp <;> omega

theorem all_tabulated_of_ascii (q : JSString) (h : ∀ u ∈ q, u < 128) :
    q.all tabulated = true := by
  rw [List.all_eq_true]
  intro u hu
  have := h u hu
  simp only [tabulated, Bool.or_eq_true, decide_eq_true_eq]
  left
  omega

theorem toUpperCase_ascii (U : UnicodeCase) (q : JSString) (h : ∀ u ∈ q, u < 128) :
    toUpperCase U q = q.flatMap upperUnit := by
  unfold toUpperCase
  rw [if_pos (all_tabulated_of_ascii q h)]

theorem toLowerCase_ascii (U : UnicodeCase) (q : JSString) (h : ∀ u ∈ q, u < 128) :
    toLowerCase U q = q.map lowerUnit := by
  unfold toLowerCase
  rw [if_pos (all_tabulated_of_ascii q h)]

theorem toLowerCase_not_tabulated (U : UnicodeCase) (s : JSString)
    (h : s.all tabulated = false) : toLowerCase U s = U.lower s := by
  unfold toLowerCase
  rw [h]
  rfl

/-- A Cyrillic name and a name with U+212A (Kelvin sign) are lower-cased by
the engine, not by the table. -/
theorem toLowerCase_other_scripts (U : UnicodeCase) :
    toLowerCase U (utf16 "Иван") = U.lower (utf16 "Иван") ∧
    toLowerCase U (utf16 "Kelvin") = U.lower (utf16 "Kelvin") :=
  ⟨rfl, rfl⟩

theorem toLowerCase_ascii_fold (U : UnicodeCase) (q : JSString) (h : ∀ u ∈ q, u < 128) :
    toLowerCase U q = q.map (fun u => if 65 ≤ u ∧ u ≤ 90 then u + 32 else u) := by
  rw [toLowerCase_ascii U q h]
  apply List.map_congr_left
  intro u hu
  have := h u hu
  unfold lowerUnit
  split_ifs <;> first | rfl | omega

theorem toLowerCase_toUpperCase_ascii (U : UnicodeCase) (q : JSString)
    (h : ∀ u ∈ q, u < 128) :
    toLowerCase U (toUpperCase U q) = toLowerCase U q := by
  have hup : ∀ v ∈ q.flatMap upperUnit, v < 128 := by
    intro v hv
    obtain ⟨u, hu, hvu⟩ := List.mem_flatMap.1 hv
    exact upperUnit_ascii u (h u hu) v hvu
  rw [toUpperCase_ascii U q h, toLowerCase_ascii U _ hup, toLowerCase_ascii U q h,
    map_lowerUnit_flatMap_upperUnit q h]

theorem lowerUnit_whiteSpace (u : Nat) (h : isWhiteSpace u = true) : lowerUnit u = u := by
  unfold isWhiteSpace at h
  unfold lowerUnit
  simp only [Bool.or_eq_true, Bool.and_eq_true, decide_eq_true_eq] at h
  split_ifs <;> omega

theorem map_lowerUnit_whiteSpace (q : JSString) (h : ∀ u ∈ q, isWhiteSpace u = true) :
    q.map lowerUnit = q := by
  induction q with
  | nil => rfl
  | cons u rest ih =>
    have hr := ih (fun v hv => h v (List.mem_cons_of_mem u hv))
    simp only [List.map_cons, hr, lowerUnit_whiteSpace u (h u (List.mem_cons_self u rest))]

theorem toLowerCase_whiteSpace (U : UnicodeCase) (q : JSString)
    (h : ∀ u ∈ q, isWhiteSpace u = true) : toLowerCase U q = q := by
  have hall : q.all tabulated = true := by
    rw [List.all_eq_true]
    intro u hu
    simp only [tabulated, Bool.or_eq_true]
    exact Or.inr (h u hu)
  unfold toLowerCase
  rw [if_pos hall, map_lowerUnit_whiteSpace q h]

/-! ## Lemmas: the filter -/

theorem isNullish_of_isString_propOf (c : JSValue) (key : JSString)
    (h : (c.propOf key).isString = true) : c.isNullish = false := by
  cases c <;> simp_all [JSValue.propOf, JSValue.isString, JSValue.isNullish]

theorem callToLowerCase_of_isString (U : UnicodeCase) (v : JSValue)
    (h : v.isString = true) :
    v.callToLowerCase U = .ok (toLowerCase U v.stringOf) := by
  cases v <;> simp_all [JSValue.isString, JSValue.callToLowerCase, JSValue.stringOf]

theorem matchesSearch_contact (U : UnicodeCase) (q : JSString) (c : JSValue)
    (h : isContact c = true) :
    matchesSearch U q c = .ok (decide (Matches U q c)) := by
  unfold isContact at h
  simp only [Bool.and_eq_true] at h
  obtain ⟨⟨hn, he⟩, hk⟩ := h
  have hc : c.isNullish = false := isNullish_of_isString_propOf c _ hn
  have hco : (c.propOf (utf16 "company")).isNullish = false :=
    isNullish_of_isString_propOf _ _ hk
  have hlhs : matchesSearch U q c = .ok
      (includes (toLowerCase U (nameOf c)) (toLowerCase U q) ||
        includes (toLowerCase U (emailOf c)) (toLowerCase U q) ||
        includes (toLowerCase U (companyNameOf c)) (toLowerCase U q)) := by
    unfold matchesSearch nameOf emailOf companyNameOf
    simp only [JSValue.getProp, hc, hco, callToLowerCase_of_isString U _ hn,
      callToLowerCase_of_isString U _ he, callToLowerCase_of_isString U _ hk,
      bind, Except.bind, pure, Except.pure, Bool.false_eq_true, if_false]
    cases includes (toLowerCase U (c.propOf (utf16 "name")).stringOf) (toLowerCase U q) <;>
      cases includes (toLowerCase U (c.propOf (utf16 "email")).stringOf) (toLowerCase U q) <;>
      simp
  rw [hlhs]
  congr 1
  unfold Matches
  simp only [← includes_iff, Bool.decide_or, Bool.decide_eq_true, Bool.or_assoc]

theorem arrayFilter_ok (p : JSValue → Except JSError Bool) (f : JSValue → Bool)
    (C : List JSValue) (h : ∀ c ∈ C, p c = .ok (f c)) :
    arrayFilter p C = .ok (C.filter f) := by
  induction C with
  | nil => rfl
  | cons x xs ih =>
    have hx : p x = .ok (f x) := h x (List.mem_cons_self x xs)
    have hxs : arrayFilter p xs = .ok (xs.filter f) :=
      ih (fun c hc => h c (List.mem_cons_of_mem x hc))
    cases hfx : f x <;>
      simp [arrayFilter, hx, hxs, hfx, bind, Except.bind, pure, Except.pure]

theorem filteredContacts_contacts (U : UnicodeCase) (C : List JSValue) (q : JSString)
    (h : ∀ c ∈ C, isContact c = true) :
    filteredContacts U C q = .ok (C.filter (fun c => decide (Matches U q c))) :=
  arrayFilter_ok _ _ C (fun c hc => matchesSearch_contact U q c (h c hc))

theorem arrayFilter_again (p : JSValue → Except JSError Bool) (C R : List JSValue)
    (h : arrayFilter p C = .ok R) : arrayFilter p R = .ok R := by
  induction C generalizing R with
  | nil =>
    simp only [arrayFilter, Except.ok.injEq] at h
    subst h
    rfl
  | cons x xs ih =>
    simp only [arrayFilter, bind, Except.bind, pure, Except.pure] at h
    cases hx : p x with
    | error e => simp [hx] at h
    | ok b =>
      cases hxs : arrayFilter p xs with
      | error e => simp [hx, hxs] at h
      | ok rest =>
        have hrest := ih rest hxs
        simp only [hx, hxs, Except.ok.injEq] at h
        subst h
        cases b
        · simpa using hrest
        · simp [arrayFilter, hx, hrest, bind, Except.bind, pure, Except.pure]

/-! ## Lemmas: the merge -/

theorem sameValueZero_eq (a b : JSValue) (h : sameValueZero a b = true) : a = b := by
  cases a <;> cases b <;> simp_all [sameValueZero]

theorem sameValueZero_comm (a b : JSValue) : sameValueZero a b = sameValueZero b a := by
  cases a <;> cases b <;> simp [sameValueZero, Bool.beq_comm, eq_comm]

theorem arrayMap_toEntry (xs : List JSValue) (h : ∀ x ∈ xs, x.isNullish = false) :
    arrayMap toEntry xs = .ok (xs.map entryOf) := by
  induction xs with
  | nil => rfl
  | cons x xs ih =>
    have hx : x.isNullish = false := h x (List.mem_cons_self x xs)
    have hxs := ih (fun y hy => h y (List.mem_cons_of_mem x hy))
    simp [arrayMap, toEntry, JSValue.getProp, hx, hxs, entryOf, idOf, bind, Except.bind,
      pure, Except.pure]

theorem arrayMap_toEntry_nullish (xs : List JSValue) (h : ∃ x ∈ xs, x.isNullish = true) :
    arrayMap toEntry xs = .error .typeError := by
  induction xs with
  | nil => simp at h
  | cons x xs ih =>
    cases hx : x.isNullish with
    | true => simp [arrayMap, toEntry, JSValue.getProp, hx, bind, Except.bind]
    | false =>
      have hxs : arrayMap toEntry xs = .error .typeError := by
        apply ih
        obtain ⟨y, hy, hyn⟩ := h
        rcases List.mem_cons.1 hy with rfl | hy
        · simp [hx] at hyn
        · exact ⟨y, hy, hyn⟩
      simp [arrayMap, toEntry, JSValue.getProp, hx, hxs, bind, Except.bind, pure, Except.pure]

theorem mergeContacts_array_nullish (xs : List JSValue) (h : ∃ x ∈ xs, x.isNullish = true) :
    mergeContacts (.array xs) = .error .typeError := by
  have hall : ∃ x ∈ dummyContacts ++ xs, x.isNullish = true := by
    obtain ⟨x, hx, hn⟩ := h
    exact ⟨x, List.mem_append_right _ hx, hn⟩
  simp only [mergeContacts, spread, arrayMap_toEntry_nullish _ hall, bind, Except.bind]

theorem mem_mapSet (m : List (JSValue × JSValue)) (k v : JSValue) (e : JSValue × JSValue)
    (h : e ∈ mapSet m k v) : e ∈ m ∨ e = (k, v) := by
  induction m with
  | nil => simpa [mapSet] using h
  | cons hd tl ih =>
    obtain ⟨k', v'⟩ := hd
    unfold mapSet at h
    split_ifs at h with hs
    · rcases List.mem_cons.1 h with rfl | h
      · right; rw [sameValueZero_eq _ _ hs]
      · left; exact List.mem_cons_of_mem _ h
    · rcases List.mem_cons.1 h with rfl | h
      · left; exact List.mem_cons_self _ _
      · rcases ih h with h | h
        · left; exact List.mem_cons_of_mem _ h
        · right; exact h

theorem mem_foldl_mapSet (es m : List (JSValue × JSValue)) (e : JSValue × JSValue)
    (h : e ∈ es.foldl (fun m e => mapSet m e.1 e.2) m) : e ∈ m ∨ e ∈ es := by
  induction es generalizing m with
  | nil => left; simpa using h
  | cons hd tl ih =>
    rcases ih _ h with h | h
    · rcases mem_mapSet _ _ _ _ h with h | h
      · left; exact h
      · right; rw [h]; exact List.mem_cons_self _ _
    · right; exact List.mem_cons_of_mem _ h

theorem mem_newMap (es : List (JSValue × JSValue)) (e : JSValue × JSValue)
    (h : e ∈ newMap es) : e ∈ es := by
  rcases mem_foldl_mapSet es [] e h with h | h
  · simp at h
  · exact h

/-- The value stored under the first key of a `Map` is the one of the last
entry with that key; the entries with another key build the rest. -/
theorem foldl_mapSet_cons (es m : List (JSValue × JSValue)) (k v : JSValue) :
    es.foldl (fun m e => mapSet m e.1 e.2) ((k, v) :: m) =
      (k, (((es.filter (fun e => sameValueZero k e.1)).getLast?).map Prod.snd).getD v) ::
        (es.filter (fun e => !sameValueZero k e.1)).foldl (fun m e => mapSet m e.1 e.2) m := by
  induction es generalizing m v with
  | nil => rfl
  | cons hd tl ih =>
    obtain ⟨j, w⟩ := hd
    cases hs : sameValueZero k j with
    | true =>
      simp only [List.foldl_cons, mapSet, hs, if_true, ih, List.filter_cons, Bool.not_true,
        Bool.false_eq_true, if_false]
      congr 2
      rw [List.getLast?_cons]
      generalize (tl.filter (fun e => sameValueZero k e.1)).getLast? = last
      cases last <;> rfl
    | false =>
      simp only [List.foldl_cons, mapSet, hs, Bool.false_eq_true, if_false, ih,
        List.filter_cons, Bool.not_false, if_true]

theorem newMap_cons (es : List (JSValue × JSValue)) (k v : JSValue) :
    newMap ((k, v) :: es) =
      (k, (((es.filter (fun e => sameValueZero k e.1)).getLast?).map Prod.snd).getD v) ::
        newMap (es.filter (fun e => !sameValueZero k e.1)) := by
  unfold newMap
  rw [List.foldl_cons]
  exact foldl_mapSet_cons es [] k v

theorem newMap_of_pairwise (es : List (JSValue × JSValue))
    (h : es.Pairwise (fun a b => sameValueZero a.1 b.1 = false)) : newMap es = es := by
  induction es with
  | nil => rfl
  | cons hd tl ih =>
    obtain ⟨k, v⟩ := hd
    rw [List.pairwise_cons] at h
    have h1 : tl.filter (fun e => sameValueZero k e.1) = [] := by
      rw [List.filter_eq_nil_iff]
      intro e he
      simp [h.1 e he]
    have h2 : tl.filter (fun e => !sameValueZero k e.1) = tl := by
      rw [List.filter_eq_self]
      intro e he
      simp [h.1 e he]
    rw [newMap_cons, h1, h2, ih h.2]
    rfl

theorem mergeContacts_array (xs : List JSValue) (h : ∀ x ∈ xs, x.isNullish = false) :
    mergeContacts (.array xs) =
      .ok (mapValues (newMap ((dummyContacts ++ xs).map entryOf))) := by
  have hall : ∀ x ∈ dummyContacts ++ xs, x.isNullish = false := by
    intro x hx
    rcases List.mem_append.1 hx with hx | hx
    · simp only [dummyContacts, List.mem_cons, List.mem_singleton, List.not_mem_nil,
        or_false] at hx
      rcases hx with rfl | rfl <;> rfl
    · exact h x hx
  simp only [mergeContacts, spread, arrayMap_toEntry _ hall, bind, Except.bind, pure,
    Except.pure]

theorem not_101_of_102 (j : JSValue) (h : sameValueZero (.number 102) j = true) :
    sameValueZero (.number 101) j = false := by
  cases j <;> simp_all [sameValueZero]
  omega

theorem filter_entries (p : JSValue → Bool) (xs : List JSValue) :
    (xs.map entryOf).filter (fun e => p e.1) = (xs.filter (fun x => p (idOf x))).map entryOf := by
  induction xs with
  | nil => rfl
  | cons x xs ih =>
    simp only [List.map_cons, List.filter_cons, ih, entryOf]
    split_ifs <;> rfl

theorem lastValue_entries (k : JSValue) (xs : List JSValue) :
    (((xs.map entryOf).filter (fun e => sameValueZero k e.1)).getLast?).map Prod.snd =
      lastWithId k xs := by
  rw [filter_entries (fun j => sameValueZero k j), List.getLast?_map, Option.map_map]
  unfold lastWithId
  cases (xs.filter (fun x => sameValueZero k (idOf x))).getLast? <;> rfl

/-- The merged collection in closed form: the record under 101, the record
under 102, then the `Map` of the remote entries with another id. -/
theorem merge_closed_form (xs : List JSValue) :
    mapValues (newMap ((dummyContacts ++ xs).map entryOf)) =
      (lastWithId (.number 101) xs).getD sarah :: (lastWithId (.number 102) xs).getD marcus ::
        mapValues (newMap ((xs.filter (fun x => notSeedId (idOf x))).map entryOf)) := by
  have hs : entryOf sarah = (.number 101, sarah) := rfl
  have hm : entryOf marcus = (.number 102, marcus) := rfl
  have h12 : sameValueZero (.number 101) (.number 102) = false := by decide
  have hf : ∀ l : List (JSValue × JSValue),
      (l.filter (fun e => !sameValueZero (.number 101) e.1)).filter
        (fun e => sameValueZero (.number 102) e.1) =
      l.filter (fun e => sameValueZero (.number 102) e.1) := by
    intro l
    rw [List.filter_filter]
    congr 1
    funext e
    cases h : sameValueZero (.number 102) e.1
    · rfl
    · simp [not_101_of_102 _ h]
  simp only [dummyContacts, List.cons_append, List.nil_append, List.map_cons, hs, hm]
  rw [newMap_cons]
  simp only [List.filter_cons, h12, Bool.false_eq_true, if_false, Bool.not_false, if_true]
  rw [newMap_cons, hf, List.filter_filter, lastValue_entries, lastValue_entries,
    filter_entries (fun j => !sameValueZero (.number 102) j && !sameValueZero (.number 101) j)]
  simp only [mapValues, List.map_cons, notSeedId, Bool.and_comm]

theorem firstOccurrences_filter (k : JSValue) (ks : List JSValue) :
    firstOccurrences (ks.filter (fun j => !sameValueZero k j)) =
      (firstOccurrences ks).filter (fun j => !sameValueZero k j) := by
  induction ks with
  | nil => rfl
  | cons j ks ih =>
    cases hs : sameValueZero k j with
    | false =>
      simp only [List.filter_cons, hs, Bool.not_false, if_true, firstOccurrences, ih,
        List.filter_filter, Bool.and_comm]
    | true =>
      have hkj : k = j := sameValueZero_eq k j hs
      subst hkj
      simp only [List.filter_cons, hs, Bool.not_true, Bool.false_eq_true, if_false,
        firstOccurrences, ih, List.filter_filter, Bool.and_self]

theorem keys_newMap_aux (n : Nat) :
    ∀ es : List (JSValue × JSValue), es.length ≤ n →
      (newMap es).map Prod.fst = firstOccurrences (es.map Prod.fst) := by
  induction n with
  | zero =>
    intro es h
    have : es = [] := List.length_eq_zero.1 (Nat.le_zero.1 h)
    subst this
    rfl
  | succ n ih =>
    intro es h
    cases es with
    | nil => rfl
    | cons hd tl =>
      obtain ⟨k, v⟩ := hd
      have hlen : (tl.filter (fun e => !sameValueZero k e.1)).length ≤ n :=
        Nat.le_trans (List.length_filter_le _ _) (Nat.le_of_succ_le_succ h)
      have hmap : (tl.filter (fun e => !sameValueZero k e.1)).map Prod.fst =
          (tl.map Prod.fst).filter (fun j => !sameValueZero k j) := by
        rw [List.filter_map]
        rfl
      rw [newMap_cons, List.map_cons, ih _ hlen, hmap, firstOccurrences_filter]
      rfl

theorem keys_newMap (es : List (JSValue × JSValue)) :
    (newMap es).map Prod.fst = firstOccurrences (es.map Prod.fst) :=
  keys_newMap_aux es.length es (Nat.le_refl _)

theorem ids_newMap_entries (xs : List JSValue) :
    (mapValues (newMap (xs.map entryOf))).map idOf = firstOccurrences (xs.map idOf) := by
  have hkey : ∀ e ∈ newMap (xs.map entryOf), idOf e.2 = e.1 := by
    intro e he
    obtain ⟨x, _, rfl⟩ := List.mem_map.1 (mem_newMap _ _ he)
    rfl
  have hmap : (xs.map entryOf).map Prod.fst = xs.map idOf := by
    rw [List.map_map]
    rfl
  rw [← hmap, ← keys_newMap, mapValues, List.map_map]
  exact List.map_congr_left hkey

theorem pairwise_mapSet (m : List (JSValue × JSValue)) (k v : JSValue)
    (h : m.Pairwise (fun a b => sameValueZero a.1 b.1 = false)) :
    (mapSet m k v).Pairwise (fun a b => sameValueZero a.1 b.1 = false) := by
  induction m with
  | nil => simp [mapSet]
  | cons hd tl ih =>
    obtain ⟨k', v'⟩ := hd
    rw [List.pairwise_cons] at h
    unfold mapSet
    split_ifs with hs
    · exact List.pairwise_cons.2 ⟨h.1, h.2⟩
    · refine List.pairwise_cons.2 ⟨?_, ih h.2⟩
      intro e he
      rcases mem_mapSet _ _ _ _ he with he | he
      · exact h.1 e he
      · rw [he]
        simpa using hs

theorem mapSet_eq_assocInsert (m : List (JSValue × JSValue)) (c : JSValue)
    (h : m.Pairwise (fun a b => sameValueZero a.1 b.1 = false)) :
    mapSet m (idOf c) c = assocInsert m c := by
  induction m with
  | nil => simp [mapSet, assocInsert]
  | cons hd tl ih =>
    obtain ⟨k', v'⟩ := hd
    rw [List.pairwise_cons] at h
    cases hs : sameValueZero k' (idOf c) with
    | true =>
      have hk : k' = idOf c := sameValueZero_eq _ _ hs
      have htl : tl.map (fun e => if sameValueZero e.1 (idOf c) then (e.1, c) else e) = tl := by
        conv_rhs => rw [← List.map_id tl]
        apply List.map_congr_left
        intro e he
        have : sameValueZero e.1 (idOf c) = false := by
          rw [sameValueZero_comm, ← hk]
          exact h.1 e he
        simp [this]
      simp [mapSet, assocInsert, hs, htl]
    | false =>
      have ih' := ih h.2
      unfold assocInsert at ih' ⊢
      unfold mapSet
      simp only [hs, Bool.false_eq_true, if_false, List.any_cons, Bool.false_or, ih',
        List.map_cons, List.cons_append]
      split_ifs <;> rfl

theorem foldl_mapSet_eq_assocInsert (xs : List JSValue) (m : List (JSValue × JSValue))
    (h : m.Pairwise (fun a b => sameValueZero a.1 b.1 = false)) :
    (xs.map entryOf).foldl (fun m e => mapSet m e.1 e.2) m = xs.foldl assocInsert m := by
  induction xs generalizing m with
  | nil => rfl
  | cons x xs ih =>
    simp only [List.map_cons, List.foldl_cons, entryOf]
    rw [ih _ (pairwise_mapSet m (idOf x) x h), mapSet_eq_assocInsert m x h]

theorem newMap_eq_orderedMerge (seed remote : List JSValue) :
    mapValues (newMap ((seed ++ remote).map entryOf)) = orderedMerge seed remote := by
  unfold newMap orderedMerge mapValues
  rw [foldl_mapSet_eq_assocInsert _ _ List.Pairwise.nil, List.foldl_append]

theorem idOf_lastWithId_getD (k d : JSValue) (xs : List JSValue)
    (hd : sameValueZero k (idOf d) = true) :
    sameValueZero k (idOf ((lastWithId k xs).getD d)) = true := by
  unfold lastWithId
  cases h : (xs.filter (fun x => sameValueZero k (idOf x))).getLast? with
  | none => simpa using hd
  | some r =>
    have hr : r ∈ xs.filter (fun x => sameValueZero k (idOf x)) := List.mem_of_getLast?_eq_some h
    simpa using (List.mem_filter.1 hr).2

theorem lastWithId_some (k : JSValue) (xs : List JSValue)
    (h : ∃ x ∈ xs, sameValueZero k (idOf x) = true) :
    ∃ r, lastWithId k xs = some r ∧ r ∈ xs ∧ sameValueZero k (idOf r) = true := by
  unfold lastWithId
  cases hl : (xs.filter (fun x => sameValueZero k (idOf x))).getLast? with
  | none =>
    obtain ⟨x, hx, hk⟩ := h
    rw [List.getLast?_eq_none_iff, List.filter_eq_nil_iff] at hl
    exact absurd hk (hl x hx)
  | some r =>
    have hr : r ∈ xs.filter (fun x => sameValueZero k (idOf x)) := List.mem_of_getLast?_eq_some hl
    exact ⟨r, rfl, (List.mem_filter.1 hr).1, (List.mem_filter.1 hr).2⟩

theorem mem_rest (xs : List JSValue) (c : JSValue)
    (h : c ∈ mapValues (newMap ((xs.filter (fun x => notSeedId (idOf x))).map entryOf))) :
    c ∈ xs ∧ notSeedId (idOf c) = true := by
  obtain ⟨e, he, rfl⟩ := List.mem_map.1 h
  obtain ⟨x, hx, rfl⟩ := List.mem_map.1 (mem_newMap _ _ he)
  exact ⟨(List.mem_filter.1 hx).1, (List.mem_filter.1 hx).2⟩

theorem ne_of_sameValueZero_false (a b : JSValue) (ha : sameValueZero a a = true)
    (h : sameValueZero a b = false) : b ≠ a := by
  intro hb
  rw [hb, ha] at h
  cases h

theorem sameValueZero_false_of_ne (a b : JSValue) (h : a ≠ b) : sameValueZero a b = false := by
  cases hs : sameValueZero a b with
  | false => rfl
  | true => exact absurd (sameValueZero_eq a b hs) h

theorem not_102_of_101 (j : JSValue) (h : sameValueZero (.number 101) j = true) :
    sameValueZero (.number 102) j = false := by
  cases j <;> simp_all [sameValueZero]
  omega

theorem number_ne (a b : Int) (h : a ≠ b) : JSValue.number a ≠ JSValue.number b :=
  fun e => h (JSValue.number.inj e)

/-! ## Lemmas: the load effect -/

theorem loadEffect_rejected (s : State) (e : JSError) :
    loadEffect s (.error e) = ⟨dummyContacts, false⟩ := rfl

theorem loadEffect_json_rejected (s : State) (status : Nat) (e : JSError) :
    loadEffect s (.ok ⟨status, .error e⟩) = ⟨dummyContacts, false⟩ := rfl

theorem loadEffect_merge_throws (s : State) (status : Nat) (data : JSValue) (e : JSError)
    (h : mergeContacts data = .error e) :
    loadEffect s (.ok ⟨status, .ok data⟩) = ⟨dummyContacts, false⟩ := by
  simp [loadEffect, successChain, onData, onError, h, bind, Except.bind]

theorem loadEffect_merged (s : State) (status : Nat) (data : JSValue) (merged : List JSValue)
    (h : mergeContacts data = .ok merged) :
    loadEffect s (.ok ⟨status, .ok data⟩) = ⟨merged, false⟩ := by
  simp [loadEffect, successChain, onData, h, bind, Except.bind, pure, Except.pure]

/-! ## The search filter: properties -/

/-- C4. For a collection of contacts `C` and a query `q`, `filteredContacts`
returns the contacts of `C` that satisfy the search criterion (the lower-cased
query is a substring of the lower-cased name, email or company name), in the
order of `C`, each as often as in `C`, and nothing else; this holds whatever
the engine's case conversion is outside the tabulated code units. On the seed
list the query "tech" returns only Sarah Mitchell and "zzz" returns nothing.
The match is blind to case on both sides: an upper-case query finds a
lower-case field, a lower-case query finds a capitalised name, company name
or email, and lower-casing an ASCII string folds exactly `A` to `Z`. -/
theorem filteredContacts_membership_order (U : UnicodeCase) (C : List JSValue)
    (q : JSString) (hC : ∀ c ∈ C, isContact c = true) :
    filteredContacts U C q = .ok (C.filter (fun c => decide (Matches U q c))) ∧
    (C.filter (fun c => decide (Matches U q c))).Sublist C ∧
    (∀ c, c ∈ C.filter (fun c => decide (Matches U q c)) ↔ c ∈ C ∧ Matches U q c) ∧
    filteredContacts U dummyContacts (utf16 "tech") = .ok [sarah] ∧
    filteredContacts U dummyContacts (utf16 "zzz") = .ok [] ∧
    filteredContacts U dummyContacts (utf16 "SARAH") = .ok [sarah] ∧
    filteredContacts U dummyContacts (utf16 "marcus johnson") = .ok [marcus] ∧
    filteredContacts U dummyContacts (utf16 "Studio PRO") = .ok [marcus] ∧
    filteredContacts U [remoteNew] (utf16 "sincere") = .ok [remoteNew] ∧
    (∀ s : JSString, (∀ u ∈ s, u < 128) →
      toLowerCase U s = s.map (fun u => if 65 ≤ u ∧ u ≤ 90 then u + 32 else u)) :=
  ⟨filteredContacts_contacts U C q hC, List.filter_sublist C,
    fun c => by simp [List.mem_filter], rfl, rfl, rfl, rfl, rfl, rfl,
    fun s hs => toLowerCase_ascii_fold U s hs⟩

/-- C4 at the seed list and the query "tech", for every engine. -/
theorem filteredContacts_membership_order_witness :
    (∀ c ∈ dummyContacts, isContact c = true) ∧
    ∀ U : UnicodeCase, filteredContacts U dummyContacts (utf16 "tech") =
      .ok (dummyContacts.filter (fun c => decide (Matches U (utf16 "tech") c))) :=
  ⟨by decide, fun U =>
    (filteredContacts_membership_order U dummyContacts (utf16 "tech") (by decide)).1⟩

/-- C7. Filtering a collection of contacts with the empty search term returns
the collection itself. -/
theorem filteredContacts_empty_query (U : UnicodeCase) (C : List JSValue)
    (hC : ∀ c ∈ C, isContact c = true) :
    filteredContacts U C (utf16 "") = .ok C := by
  rw [filteredContacts_contacts U C _ hC]
  congr 1
  rw [List.filter_eq_self]
  intro c _
  have hq : toLowerCase U (utf16 "") = [] := rfl
  simp only [Matches, hq, decide_eq_true_eq]
  exact Or.inl List.nil_infix

/-- C7 at the seed list, for every engine. -/
theorem filteredContacts_empty_query_witness :
    (∀ c ∈ dummyContacts, isContact c = true) ∧
    ∀ U : UnicodeCase, filteredContacts U dummyContacts (utf16 "") = .ok dummyContacts :=
  ⟨by decide, fun U => filteredContacts_empty_query U dummyContacts (by decide)⟩

/-- C8, refuted. The query is not trimmed: a single space keeps only the
contacts with a space in one of the three fields, so the contact "X" is
dropped, and two spaces drop both seed contacts. -/
theorem whitespace_query_drops_contacts :
    (∀ u ∈ utf16 " ", isWhiteSpace u = true) ∧ isContact remoteX = true ∧
    (∀ u ∈ utf16 "  ", isWhiteSpace u = true) ∧
    ∀ U : UnicodeCase,
      filteredContacts U [remoteX] (utf16 " ") = .ok [] ∧
      filteredContacts U [remoteX] (utf16 " ") ≠ .ok [remoteX] ∧
      filteredContacts U dummyContacts (utf16 "  ") = .ok [] ∧
      filteredContacts U dummyContacts (utf16 "  ") ≠ .ok dummyContacts := by
  refine ⟨by decide, rfl, by decide, fun U => ⟨rfl, ?_, rfl, ?_⟩⟩
  · intro h
    have h' : (Except.ok [] : Except JSError (List JSValue)) = .ok [remoteX] := h
    cases h'
  · intro h
    have h' : (Except.ok [] : Except JSError (List JSValue)) = .ok [sarah, marcus] := h
    cases h'

/-- C8, amended. A query made of white space only is matched as it stands,
neither trimmed nor changed by lower-casing: the filter returns, in order, the
contacts one of whose lower-cased name, email or company name contains the
query, and it returns the whole collection exactly when every contact has
such a field. -/
theorem whitespace_query_literal (U : UnicodeCase) (C : List JSValue) (q : JSString)
    (hC : ∀ c ∈ C, isContact c = true) (hq : ∀ u ∈ q, isWhiteSpace u = true) :
    filteredContacts U C q = .ok (C.filter (fun c => decide
      (q <:+: toLowerCase U (nameOf c) ∨ q <:+: toLowerCase U (emailOf c) ∨
        q <:+: toLowerCase U (companyNameOf c)))) ∧
    (filteredContacts U C q = .ok C ↔ ∀ c ∈ C,
      q <:+: toLowerCase U (nameOf c) ∨ q <:+: toLowerCase U (emailOf c) ∨
        q <:+: toLowerCase U (companyNameOf c)) := by
  have h := filteredContacts_contacts U C q hC
  simp only [Matches, toLowerCase_whiteSpace U q hq] at h
  refine ⟨h, ?_⟩
  rw [h, Except.ok.injEq, List.filter_eq_self]
  simp only [decide_eq_true_eq]

/-- C8 amended, at the seed list and a single space, for every engine. -/
theorem whitespace_query_literal_witness :
    (∀ c ∈ dummyContacts, isContact c = true) ∧ (∀ u ∈ utf16 " ", isWhiteSpace u = true) ∧
    ∀ U : UnicodeCase,
      (filteredContacts U dummyContacts (utf16 " ") = .ok dummyContacts ↔
        ∀ c ∈ dummyContacts,
          utf16 " " <:+: toLowerCase U (nameOf c) ∨ utf16 " " <:+: toLowerCase U (emailOf c) ∨
            utf16 " " <:+: toLowerCase U (companyNameOf c)) :=
  ⟨by decide, by decide, fun U =>
    (whitespace_query_literal U dummyContacts (utf16 " ") (by decide) (by decide)).2⟩

/-- C9, refuted. The query U+00DF finds the contact named "Straße"; its upper
case is "SS", whose lower case "ss" does not occur in "straße", so the
upper-cased query finds nothing. All strings involved are Latin-1, so this is
so for every engine. -/
theorem upper_cased_query_differs :
    isContact strasse = true ∧
    ∀ U : UnicodeCase,
      toUpperCase U (utf16 "ß") = utf16 "SS" ∧
      filteredContacts U [strasse] (utf16 "ß") = .ok [strasse] ∧
      filteredContacts U [strasse] (toUpperCase U (utf16 "ß")) = .ok [] ∧
      filteredContacts U [strasse] (utf16 "ß") ≠
        filteredContacts U [strasse] (toUpperCase U (utf16 "ß")) := by
  refine ⟨rfl, fun U => ⟨rfl, rfl, rfl, ?_⟩⟩
  intro h
  have h' : (Except.ok [strasse] : Except JSError (List JSValue)) = .ok [] := h
  cases h'

/-- C9, amended. For a query of ASCII characters only, filtering with the
query and with the upper-cased query give the same result, on every
collection. -/
theorem case_invariance_ascii (U : UnicodeCase) (C : List JSValue) (q : JSString)
    (hq : ∀ u ∈ q, u < 128) :
    filteredContacts U C (toUpperCase U q) = filteredContacts U C q := by
  unfold filteredContacts matchesSearch
  rw [toLowerCase_toUpperCase_ascii U q hq]

/-- C9 amended, at the seed list and the query "tech", for every engine. -/
theorem case_invariance_ascii_witness :
    (∀ u ∈ utf16 "tech", u < 128) ∧
    ∀ U : UnicodeCase,
      filteredContacts U dummyContacts (toUpperCase U (utf16 "tech")) =
        filteredContacts U dummyContacts (utf16 "tech") :=
  ⟨by decide, fun U => case_invariance_ascii U dummyContacts (utf16 "tech") (by decide)⟩

/-- C10. Filtering a collection of contacts returns a result, and filtering
that result again with the same query returns it unchanged. -/
theorem filteredContacts_idempotent (U : UnicodeCase) (C : List JSValue) (q : JSString)
    (hC : ∀ c ∈ C, isContact c = true) :
    ∃ R, filteredContacts U C q = .ok R ∧ filteredContacts U R q = .ok R :=
  ⟨_, filteredContacts_contacts U C q hC,
    arrayFilter_again _ C _ (filteredContacts_contacts U C q hC)⟩

/-- C10 at the seed list and the query "tech", for every engine. -/
theorem filteredContacts_idempotent_witness :
    (∀ c ∈ dummyContacts, isContact c = true) ∧
    ∀ U : UnicodeCase, ∃ R, filteredContacts U dummyContacts (utf16 "tech") = .ok R ∧
      filteredContacts U R (utf16 "tech") = .ok R :=
  ⟨by decide, fun U => filteredContacts_idempotent U dummyContacts (utf16 "tech") (by decide)⟩

/-! ## The load effect: properties -/

/-- C2. Whenever the fetch promise rejects, or `r.json()` rejects, or the
merge throws, the load effect leaves exactly the seed list as the contact
collection (the entries with ids 101 and 102, in that order) and sets the
loading flag to false. -/
theorem load_fallback (s : State) (fetched : Except JSError Response)
    (h : (∃ e, fetched = .error e) ∨
      (∃ status e, fetched = .ok ⟨status, .error e⟩) ∨
      (∃ status data e, fetched = .ok ⟨status, .ok data⟩ ∧ mergeContacts data = .error e)) :
    (loadEffect s fetched).contacts = [sarah, marcus] ∧
    (loadEffect s fetched).loading = false ∧
    (loadEffect s fetched).contacts.map idOf = [.number 101, .number 102] := by
  have hload : loadEffect s fetched = ⟨dummyContacts, false⟩ := by
    rcases h with ⟨e, rfl⟩ | ⟨status, e, rfl⟩ | ⟨status, data, e, rfl, hm⟩
    · exact loadEffect_rejected s e
    · exact loadEffect_json_rejected s status e
    · exact loadEffect_merge_throws s status data e hm
  rw [hload]
  exact ⟨rfl, rfl, rfl⟩

/-- C2 at a response whose body is an array holding `null` after a contact:
the merge throws on `null.id` and nothing of the payload is kept. -/
theorem load_fallback_witness :
    mergeContacts (.array [remoteNew, .null]) = .error .typeError ∧
    (loadEffect initialState (.ok ⟨200, .ok (.array [remoteNew, .null])⟩)).contacts =
      [sarah, marcus] :=
  ⟨rfl, (load_fallback initialState (.ok ⟨200, .ok (.array [remoteNew, .null])⟩)
    (Or.inr (Or.inr ⟨200, _, .typeError, rfl, rfl⟩))).1⟩

/-- C3, refuted. A response with status 500 whose body is a JSON array of one
contact is merged like any other: the collection holds the remote record. -/
theorem non_success_status_merged :
    serverError.status = 500 ∧
    (loadEffect initialState (.ok serverError)).contacts = [sarah, marcus, remoteNew] ∧
    (loadEffect initialState (.ok serverError)).contacts ≠ dummyContacts := by
  refine ⟨rfl, rfl, ?_⟩
  intro h
  have h' : [sarah, marcus, remoteNew] = [sarah, marcus] := h
  exact absurd (congrArg List.length h') (by decide)

/-- C3, amended. The HTTP status is not consulted: a response yields the same
state under any two statuses; a body that fails to parse yields the seed list;
a body that parses as an array without `null` elements is merged into the seed
list, whatever the status. -/
theorem status_not_consulted (s : State) (status other : Nat)
    (body : Except JSError JSValue) (xs : List JSValue)
    (hxs : ∀ x ∈ xs, x.isNullish = false) :
    loadEffect s (.ok ⟨status, body⟩) = loadEffect s (.ok ⟨other, body⟩) ∧
    (∀ e, loadEffect s (.ok ⟨status, .error e⟩) = ⟨dummyContacts, false⟩) ∧
    loadEffect s (.ok ⟨status, .ok (.array xs)⟩) =
      ⟨orderedMerge dummyContacts xs, false⟩ := by
  refine ⟨rfl, fun e => rfl, ?_⟩
  apply loadEffect_merged
  rw [mergeContacts_array xs hxs, newMap_eq_orderedMerge]

/-- C3 amended, at statuses 500 and 200 and the body of `serverError`. -/
theorem status_not_consulted_witness :
    (∀ x ∈ [remoteNew], x.isNullish = false) ∧
    loadEffect initialState (.ok ⟨500, .ok (.array [remoteNew])⟩) =
      loadEffect initialState (.ok ⟨200, .ok (.array [remoteNew])⟩) :=
  ⟨by decide, (status_not_consulted initialState 500 200 (.ok (.array [remoteNew]))
    [remoteNew] (by decide)).1⟩

/-! ## The merge: properties -/

/-- C1. For a remote array `xs` (without `null` elements, on which the merge
throws) and a seed contact `s` whose id occurs in `xs`, the merge returns a
collection with exactly one entry of that id: it splits as `pre ++ r :: post`
where no entry of `pre` or `post` has the id, and `r` is a remote record, the
last element of `xs` with that id. -/
theorem merge_remote_wins (xs : List JSValue) (hxs : ∀ x ∈ xs, x.isNullish = false)
    (s : JSValue) (hs : s ∈ dummyContacts) (hshared : ∃ x ∈ xs, idOf x = idOf s) :
    ∃ merged pre r post,
      mergeContacts (.array xs) = .ok merged ∧
      merged = pre ++ r :: post ∧
      idOf r = idOf s ∧ (∀ c ∈ pre ++ post, idOf c ≠ idOf s) ∧
      r ∈ xs ∧ lastWithId (idOf s) xs = some r := by
  have hmerge := mergeContacts_array xs hxs
  rw [merge_closed_form] at hmerge
  have h101 := idOf_lastWithId_getD (.number 101) sarah xs rfl
  have h102 := idOf_lastWithId_getD (.number 102) marcus xs rfl
  have hrest : ∀ c ∈ mapValues (newMap ((xs.filter (fun x => notSeedId (idOf x))).map entryOf)),
      sameValueZero (.number 101) (idOf c) = false ∧
      sameValueZero (.number 102) (idOf c) = false := by
    intro c hc
    have hn := (mem_rest xs c hc).2
    simpa [notSeedId] using hn
  obtain ⟨x, hx, hxid⟩ := hshared
  simp only [dummyContacts, List.mem_cons, List.mem_singleton, List.not_mem_nil,
    or_false] at hs
  rcases hs with rfl | rfl
  · have hid : idOf sarah = .number 101 := rfl
    rw [hid] at hxid ⊢
    obtain ⟨r, hr, hrx, hrid⟩ := lastWithId_some (.number 101) xs ⟨x, hx, by rw [hxid]; rfl⟩
    refine ⟨_, [], r, (lastWithId (.number 102) xs).getD marcus ::
      mapValues (newMap ((xs.filter (fun x => notSeedId (idOf x))).map entryOf)),
      hmerge, ?_, (sameValueZero_eq _ _ hrid).symm, ?_, hrx, hr⟩
    · rw [hr]
      rfl
    · intro c hc
      simp only [List.nil_append, List.mem_cons] at hc
      rcases hc with rfl | hc
      · exact ne_of_sameValueZero_false _ _ rfl (not_101_of_102 _ h102)
      · exact ne_of_sameValueZero_false _ _ rfl (hrest c hc).1
  · have hid : idOf marcus = .number 102 := rfl
    rw [hid] at hxid ⊢
    obtain ⟨r, hr, hrx, hrid⟩ := lastWithId_some (.number 102) xs ⟨x, hx, by rw [hxid]; rfl⟩
    refine ⟨_, [(lastWithId (.number 101) xs).getD sarah], r,
      mapValues (newMap ((xs.filter (fun x => notSeedId (idOf x))).map entryOf)),
      hmerge, ?_, (sameValueZero_eq _ _ hrid).symm, ?_, hrx, hr⟩
    · rw [hr]
      rfl
    · intro c hc
      simp only [List.singleton_append, List.mem_cons] at hc
      rcases hc with rfl | hc
      · exact ne_of_sameValueZero_false _ _ rfl (not_102_of_101 _ h101)
      · exact ne_of_sameValueZero_false _ _ rfl (hrest c hc).2

/-- C1 at scenario A: the remote array holds one record with id 101. -/
theorem merge_remote_wins_witness :
    (∀ x ∈ [remoteX], x.isNullish = false) ∧ sarah ∈ dummyContacts ∧
    mergeContacts (.array [remoteX]) = .ok [remoteX, marcus] ∧
    ∃ merged pre r post,
      mergeContacts (.array [remoteX]) = .ok merged ∧
      merged = pre ++ r :: post ∧
      idOf r = idOf sarah ∧ (∀ c ∈ pre ++ post, idOf c ≠ idOf sarah) ∧
      r ∈ [remoteX] ∧ lastWithId (idOf sarah) [remoteX] = some r :=
  ⟨by decide, List.mem_cons_self _ _, rfl,
    merge_remote_wins [remoteX] (by decide) sarah (List.mem_cons_self _ _)
      ⟨remoteX, List.mem_cons_self _ _, rfl⟩⟩

/-- C5, refuted. Two remote records share the id 1, which is not a seed id:
the merge keeps one entry for them, so the merged collection has 3 entries,
not 2 + 2. -/
theorem duplicate_remote_ids_collapse :
    (∀ x ∈ [remoteNew, remoteDup], ∀ s ∈ dummyContacts,
      sameValueZero (idOf s) (idOf x) = false) ∧
    mergeContacts (.array [remoteNew, remoteDup]) = .ok [sarah, marcus, remoteDup] ∧
    [sarah, marcus, remoteDup].length ≠ dummyContacts.length + [remoteNew, remoteDup].length :=
  ⟨by decide, rfl, by decide⟩

/-- C5, amended. For a remote array `xs` (without `null` elements) whose ids
are pairwise distinct and none of which is a seed id, the merge returns the
seed list followed by `xs`: its length is seed length + remote length and
every seed entry and every remote entry occurs in it unchanged. -/
theorem merge_disjoint_union (xs : List JSValue) (hxs : ∀ x ∈ xs, x.isNullish = false)
    (hdisj : ∀ x ∈ xs, ∀ s ∈ dummyContacts, idOf s ≠ idOf x)
    (hdistinct : xs.Pairwise (fun a b => idOf a ≠ idOf b)) :
    ∃ merged, mergeContacts (.array xs) = .ok merged ∧
      merged = dummyContacts ++ xs ∧
      merged.length = dummyContacts.length + xs.length ∧
      (∀ s ∈ dummyContacts, s ∈ merged) ∧ (∀ x ∈ xs, x ∈ merged) := by
  have hpw : ((dummyContacts ++ xs).map entryOf).Pairwise
      (fun a b => sameValueZero a.1 b.1 = false) := by
    rw [List.pairwise_map, List.pairwise_append]
    refine ⟨?_, ?_, ?_⟩
    · simp only [dummyContacts, List.pairwise_cons, List.mem_singleton, List.not_mem_nil,
        forall_eq, List.Pairwise.nil, and_true]
      refine ⟨?_, fun _ h => absurd h id⟩
      decide
    · exact hdistinct.imp (fun h => sameValueZero_false_of_ne _ _ h)
    · intro s hs x hx
      exact sameValueZero_false_of_ne _ _ (hdisj x hx s hs)
  refine ⟨_, mergeContacts_array xs hxs, ?_, ?_, ?_, ?_⟩
  · rw [newMap_of_pairwise _ hpw, mapValues, List.map_map]
    exact List.map_id _
  · rw [newMap_of_pairwise _ hpw, mapValues, List.map_map, List.length_map, List.length_append]
  · intro s hs
    rw [newMap_of_pairwise _ hpw, mapValues, List.map_map]
    exact List.mem_map.2 ⟨s, List.mem_append_left _ hs, rfl⟩
  · intro x hx
    rw [newMap_of_pairwise _ hpw, mapValues, List.map_map]
    exact List.mem_map.2 ⟨x, List.mem_append_right _ hx, rfl⟩

/-- C5 amended, at a remote array of one record with id 1. -/
theorem merge_disjoint_union_witness :
    (∀ x ∈ [remoteNew], x.isNullish = false) ∧
    ∃ merged, mergeContacts (.array [remoteNew]) = .ok merged ∧
      merged = dummyContacts ++ [remoteNew] ∧
      merged.length = dummyContacts.length + [remoteNew].length ∧
      (∀ s ∈ dummyContacts, s ∈ merged) ∧ (∀ x ∈ [remoteNew], x ∈ merged) :=
  ⟨by decide, merge_disjoint_union [remoteNew] (by decide)
    (by
      intro x hx s hs
      simp only [dummyContacts, List.mem_cons, List.mem_singleton, List.not_mem_nil,
        or_false] at hx hs
      subst hx
      rcases hs with rfl | rfl
      · exact number_ne 101 1 (by decide)
      · exact number_ne 102 1 (by decide))
    (List.pairwise_singleton _ _)⟩

/-- C6. For a remote array `xs` (without `null` elements) the merge returns
the values of the ordered association built by inserting the seed entries and
then the remote entries, a later entry overwriting the value under its id and
the id keeping the place of its first insertion. The ids of the result are
101, 102, then the other remote ids in order of first occurrence. -/
theorem merge_insertion_order (xs : List JSValue) (hxs : ∀ x ∈ xs, x.isNullish = false) :
    ∃ merged, mergeContacts (.array xs) = .ok merged ∧
      merged = orderedMerge dummyContacts xs ∧
      merged.map idOf =
        .number 101 :: .number 102 :: firstOccurrences ((xs.map idOf).filter notSeedId) := by
  refine ⟨_, mergeContacts_array xs hxs, newMap_eq_orderedMerge dummyContacts xs, ?_⟩
  have h101 := sameValueZero_eq _ _ (idOf_lastWithId_getD (.number 101) sarah xs rfl)
  have h102 := sameValueZero_eq _ _ (idOf_lastWithId_getD (.number 102) marcus xs rfl)
  have hmap : (xs.filter (fun x => notSeedId (idOf x))).map idOf =
      (xs.map idOf).filter notSeedId := by
    rw [List.filter_map]
    rfl
  rw [merge_closed_form, List.map_cons, List.map_cons, ids_newMap_entries, hmap, ← h101, ← h102]

/-- C6 at a remote array whose second record overwrites the seed entry 101 and
whose third record overwrites the first. -/
theorem merge_insertion_order_witness :
    (∀ x ∈ [remoteNew, remoteX, remoteDup], x.isNullish = false) ∧
    mergeContacts (.array [remoteNew, remoteX, remoteDup]) =
      .ok [remoteX, marcus, remoteDup] ∧
    ∃ merged, mergeContacts (.array [remoteNew, remoteX, remoteDup]) = .ok merged ∧
      merged = orderedMerge dummyContacts [remoteNew, remoteX, remoteDup] ∧
      merged.map idOf =
        .number 101 :: .number 102 ::
          firstOccurrences (([remoteNew, remoteX, remoteDup].map idOf).filter notSeedId) :=
  ⟨by decide, rfl, merge_insertion_order [remoteNew, remoteX, remoteDup] (by decide)⟩

end ContactsApp
